import Mathlib

/-!
# Verification of the LightenPlot / PlotEase statistics engine

Shallow embedding of the statistics / outlier-detection / comparison logic of
the repository.  Numeric cells of a pandas `Series` are modelled as
`Option ℚ` (`none` is a missing value / `NaN`); exact rational arithmetic
stands in for the floating-point arithmetic of the source.  Pandas / numpy
library calls that the source delegates to (`dropna`, `mean`, `std`,
`quantile`, `corr`, `sort_values`, `sorted`, `idxmax`) are embedded by their
documented semantics.
-/

/-- Pandas `Series.dropna`: the non-missing values of a series, in order. -/
def dropna (xs : List (Option ℚ)) : List ℚ := xs.filterMap id

/-- Pandas `Series.mean` of a complete (missing-free) list: sum divided by length.
(In Lean `x / 0 = 0`, so the empty list gets the junk value `0`; the source
produces `NaN` there, and no theorem below relies on the empty case.) -/
def mean (xs : List ℚ) : ℚ := xs.sum / (xs.length : ℚ)

/-- Sum of squared deviations from the mean, `Σ (x - mean)²` — the common
numerator of the sample variance and of pandas' internal `ssqdm`. -/
def sumSqDev (xs : List ℚ) : ℚ := (xs.map (fun x => (x - mean xs) ^ 2)).sum

/-- Sample variance with `ddof = 1`, the default of `Series.std`/`Series.var`:
`Σ (x - mean)² / (n - 1)`, undefined (`NaN`, i.e. `none`) for fewer than two
values. -/
def sampleVar (xs : List ℚ) : Option ℚ :=
  if xs.length < 2 then none
  else some (sumSqDev xs / ((xs.length : ℚ) - 1))

/-- The z-score outlier flags of `DiagnosticPlotter.outlier_detection_plot`
(src/LightenPlot/diagnostic.py lines 149-152):
`z_scores = np.abs((data - data.mean()) / data.std()); outliers = z_scores > 3`.

Embedding of the float comparison in exact arithmetic: for `std > 0`,
`|x - m| / std > 3  ↔  (x - m)² > 9 · var` (squaring both sides, since
`std² = var`).  When `std = 0` the source divides `0 / 0 = NaN` (every value
equals the mean when the variance is zero) and `NaN > 3` is `False`; in that
case `(x - m)² > 9 · var` is `0 > 0`, likewise false.  When fewer than two
values are present `std` is `NaN`, every z-score is `NaN`, and every
comparison is `False`, matching the `none` branch. -/
def zscoreFlags (data : List ℚ) : List Bool :=
  match sampleVar data with
  | none => data.map fun _ => false
  | some v => data.map fun x => decide (9 * v < (x - mean data) ^ 2)

/-- Pandas `Series.quantile q` with the default `linear` interpolation: with the
values sorted ascending as `s₀ ≤ … ≤ s_{n-1}`, the quantile sits at fractional
position `h = q·(n-1)`; writing `i = ⌊h⌋` and `g = h - i`, the result is
`s_i + g·(s_{i+1} - s_i)` (and `s_i` when `i` is the last index).
`List.insertionSort` is the sorted ascending rearrangement. -/
def quantile (xs : List ℚ) (q : ℚ) : ℚ :=
  if xs.length = 0 then 0
  else
    let s := List.insertionSort (· ≤ ·) xs
    let h : ℚ := q * ((xs.length : ℚ) - 1)
    let i : ℕ := (⌊h⌋).toNat
    let g : ℚ := h - (i : ℚ)
    match s[i]?, s[i + 1]? with
    | some a, some b => a + g * (b - a)
    | some a, none => a
    | none, _ => 0

/-- The bound `Q1 - 1.5·IQR` from `detect_outliers_iqr` (src/plotease/utils.py lines
131-136) and `DiagnosticPlotter.outlier_detection_plot` (lines 142-146). -/
def iqrLower (data : List ℚ) : ℚ :=
  quantile data (1/4) - (3/2) * (quantile data (3/4) - quantile data (1/4))

/-- The bound `Q3 + 1.5·IQR`, same sources. -/
def iqrUpper (data : List ℚ) : ℚ :=
  quantile data (3/4) + (3/2) * (quantile data (3/4) - quantile data (1/4))

/-- The function `detect_outliers_iqr` (src/plotease/utils.py lines 121-138) /
the `'iqr'` branch of `outlier_detection_plot` (diagnostic.py lines 141-148):
`(data < lower_bound) | (data > upper_bound)`, elementwise and strict. -/
def detect_outliers_iqr (data : List ℚ) : List Bool :=
  data.map fun x => decide (x < iqrLower data) || decide (iqrUpper data < x)

/-- The outlier-flag computation of
`DiagnosticPlotter.outlier_detection_plot` (src/LightenPlot/diagnostic.py
lines 139-152): drop missing values, then dispatch on the `method` string —
the string `'iqr'` selects the IQR method, every other string falls into the
`else` branch, the z-score method with fixed threshold 3. -/
def outlier_detection (method : String) (series : List (Option ℚ)) : List Bool :=
  let data := dropna series
  if method = "iqr" then detect_outliers_iqr data else zscoreFlags data

/-! ## Correlation (`calculate_correlation_matrix`, src/plotease/utils.py lines
167-179, delegating to pandas `DataFrame.corr(method)`)

A dataset is modelled as its list of numeric columns (the source first
restricts to numeric columns with `select_dtypes`), each column a complete
list of rationals.  The pairwise correlation functions embed the documented
semantics of `DataFrame.corr` for the three supported methods; a `NaN` result
(degenerate input) is `none`.  The irrational square root forces values into
`ℝ`, so these definitions are noncomputable; the degeneracy guards are exact
rational tests. -/

/-- An enumeration for a supported `method` argument of `DataFrame.corr`. -/
inductive CorrMethod where
  | pearson
  | spearman
  | kendall
deriving DecidableEq

/-- Sum of products of deviations, `Σ (x_i - mean x)(y_i - mean y)` — the
covariance numerator of pandas `nancorr` (the `1/(n-1)` factors cancel against
the standard deviations and are omitted there too). -/
def covSum (x y : List ℚ) : ℚ :=
  ((x.zip y).map fun p => (p.1 - mean x) * (p.2 - mean y)).sum

/-- Pearson correlation as computed by pandas `nancorr`:
`cov / sqrt(ssqdm_x · ssqdm_y)`, `NaN` (here `none`) when the divisor is zero,
which over exact arithmetic happens exactly when `ssqdm_x · ssqdm_y = 0`
(a constant or empty or single-element column). -/
noncomputable def pearsonCorr (x y : List ℚ) : Option ℝ :=
  if sumSqDev x * sumSqDev y = 0 then none
  else some ((covSum x y : ℝ) / Real.sqrt ((sumSqDev x * sumSqDev y : ℚ) : ℝ))

/-- Average rank (ties get the mean of the tied positions) of a value inside a
list, pandas `rank(method='average')`: `((#{y < x}) + (#{y ≤ x}) + 1) / 2`. -/
def rankOf (l : List ℚ) (x : ℚ) : ℚ :=
  (((l.countP fun y => decide (y < x)) : ℚ) + ((l.countP fun y => decide (y ≤ x)) : ℚ) + 1) / 2

/-- The list of average ranks of a column, pandas `rank(method='average')`. -/
def ranks (l : List ℚ) : List ℚ := l.map (rankOf l)

/-- Spearman correlation, pandas `nancorr_spearman`: Pearson correlation of
the average ranks. -/
noncomputable def spearmanCorr (x y : List ℚ) : Option ℝ :=
  pearsonCorr (ranks x) (ranks y)

/-- All index pairs `i < j` of a list, materialised as element pairs
`(l_i, l_j)` in lexicographic order of `(i, j)`. -/
def offDiagPairs {α : Type*} : List α → List (α × α)
  | [] => []
  | a :: l => (l.map fun b => (a, b)) ++ offDiagPairs l

/-- Kendall rank correlation (tau-b), the method scipy and pandas use for
`method='kendall'`: with `P` concordant pairs, `Q` discordant pairs, `T_x`
(`T_y`) pairs tied in `x` (`y`), and `n₀ = n(n-1)/2` pairs total,
`τ_b = (P - Q) / sqrt((n₀ - T_x)(n₀ - T_y))`, `NaN` (`none`) when the
denominator is zero. -/
noncomputable def kendallCorr (x y : List ℚ) : Option ℝ :=
  let ps := offDiagPairs (x.zip y)
  let P := ps.countP fun p => decide (0 < (p.1.1 - p.2.1) * (p.1.2 - p.2.2))
  let Q := ps.countP fun p => decide ((p.1.1 - p.2.1) * (p.1.2 - p.2.2) < 0)
  let Tx := ps.countP fun p => decide (p.1.1 = p.2.1)
  let Ty := ps.countP fun p => decide (p.1.2 = p.2.2)
  if ((ps.length : ℚ) - (Tx : ℚ)) * ((ps.length : ℚ) - (Ty : ℚ)) = 0 then none
  else some (((P : ℝ) - (Q : ℝ)) /
    Real.sqrt ((((ps.length : ℚ) - (Tx : ℚ)) * ((ps.length : ℚ) - (Ty : ℚ)) : ℚ) : ℝ))

/-- Dispatch of `DataFrame.corr(method)` on the three supported methods. -/
noncomputable def corrFn : CorrMethod → List ℚ → List ℚ → Option ℝ
  | .pearson => pearsonCorr
  | .spearman => spearmanCorr
  | .kendall => kendallCorr

/-- The function `calculate_correlation_matrix` (src/plotease/utils.py lines
167-179): the full pairwise correlation matrix over the numeric columns,
following the two computation paths of pandas `DataFrame.corr`.  The
`pearson` and `spearman` methods go to the Cython `nancorr` /
`nancorr_spearman` kernels, which compute every entry — the diagonal
included — by the correlation formula.  The `kendall` method (like user
callables) goes through the generic pairwise loop of `DataFrame.corr`, which
hard-codes `c = 1.0` whenever `i == j` and the column has at least
`min_periods = 1` valid observations (`NaN` only for a zero-row column), and
calls the tau-b computation only for `i ≠ j`. -/
noncomputable def correlation_matrix (m : CorrMethod) (cols : List (List ℚ)) :
    List (List (Option ℝ)) :=
  if m = CorrMethod.kendall then
    (List.range cols.length).map fun i =>
      (List.range cols.length).map fun j =>
        if i = j then (if cols.getD i [] = [] then none else some 1)
        else kendallCorr (cols.getD i []) (cols.getD j [])
  else cols.map fun ci => cols.map fun cj => corrFn m ci cj

/-- Entry access `M.iloc[i, j]` for the real-valued correlation matrix. -/
def matrixEntry (M : List (List (Option ℝ))) (i j : ℕ) : Option ℝ :=
  (M.getD i []).getD j none

/-! ## High-correlation report (`SummaryGenerator.correlation_summary`,
src/LightenPlot/summary.py lines 190-208 = src/plotease/summary.py lines
195-213)

The input is an already-computed correlation matrix (given here as a square
array of rationals) together with its column names. -/

/-- Entry access `corr.iloc[i, j]` for a rational matrix. -/
def qEntry (M : List (List ℚ)) (i j : ℕ) : ℚ := (M.getD i []).getD j 0

/-- One row of the `high_corr` record list: `{'Variable 1': names[i],
'Variable 2': names[j], 'Correlation': corr.iloc[i, j]}`. -/
structure CorrEntry where
  var1 : String
  var2 : String
  value : ℚ
deriving DecidableEq

/-- The sort key of `df_corr.sort_values('Correlation', key=abs,
ascending=False)`: descending absolute correlation. -/
def absGE (a b : CorrEntry) : Prop := |b.value| ≤ |a.value|

instance : DecidableRel absGE := fun _ _ => inferInstanceAs (Decidable (_ ≤ _))

instance : IsTotal CorrEntry absGE := ⟨fun _ _ => le_total _ _⟩

instance : IsTrans CorrEntry absGE := ⟨fun _ _ _ h1 h2 => le_trans h2 h1⟩

/-- The collection loop of `correlation_summary` (summary.py lines 193-202):
`for i in range(n): for j in range(i+1, n): if abs(corr.iloc[i,j]) >=
threshold: append(...)` — upper-triangle entries, diagonal excluded, in row
order. -/
def collectHighCorr (names : List String) (M : List (List ℚ)) (t : ℚ) : List CorrEntry :=
  (List.range names.length).flatMap fun i =>
    (List.range names.length).filterMap fun j =>
      if i < j ∧ t ≤ |qEntry M i j| then
        some ⟨names.getD i "", names.getD j "", qEntry M i j⟩
      else none

/-- The high-correlation report of `correlation_summary`: the collected
upper-triangle entries sorted by descending `abs(Correlation)`
(`sort_values('Correlation', key=abs, ascending=False)`; pandas' quicksort is
not stable, so any correct descending-by-absolute-value order is a faithful
refinement — `insertionSort` picks one). -/
def correlation_summary_pairs (names : List String) (M : List (List ℚ)) (t : ℚ) :
    List CorrEntry :=
  List.insertionSort absGE (collectHighCorr names M t)

/-! ## Dataset wrapper (`VisualizationBase`, src/plotease/base.py) -/

/-- A pandas `DataFrame`: named columns and a list of rows of (possibly
missing) cells.  `DataFrame.equals` compares columns and cell data, which is
structural equality here. -/
structure DataFrame where
  cols : List String
  rows : List (List (Option ℚ))
deriving DecidableEq

/-- A Python value passed to the constructor: either an actual `DataFrame` or
any non-DataFrame object (whose further structure is irrelevant — the
constructor only ever `isinstance`-checks it). -/
inductive PyObject where
  | frame (df : DataFrame)
  | nonFrame
deriving DecidableEq

/-- The error kinds `_validate_data` can raise (base.py lines 45-53):
`TypeError("Data must be a pandas DataFrame")` is the spec's
`InvalidDataType`; `ValueError("DataFrame cannot be empty")` is the spec's
`EmptyDataset`. -/
inductive PlotError where
  | invalidDataType
  | emptyDataset
deriving DecidableEq

/-- Pandas `DataFrame.empty`: true iff any axis has length zero. -/
def DataFrame.isEmpty (d : DataFrame) : Bool := d.rows.isEmpty || d.cols.isEmpty

/-- The wrapper state after a successful `VisualizationBase.__init__`:
the protected `_data` and `_theme` attributes. -/
structure VisualizationBase where
  data : DataFrame
  theme : String
deriving DecidableEq

/-- Construction of the wrapper, `VisualizationBase.__init__` +
`_validate_data` (base.py lines 27-53): type check first, then emptiness
check, then the attributes are kept.  (`_apply_theme` only touches global
matplotlib style and never fails.) -/
def mk_visualization (v : PyObject) (theme : String) : Except PlotError VisualizationBase :=
  match v with
  | .nonFrame => .error .invalidDataType
  | .frame d => if d.isEmpty then .error .emptyDataset else .ok ⟨d, theme⟩

/-- The dunder `__len__` (base.py lines 116-123): `len(self._data)`, the row
count. -/
def vb_len (w : VisualizationBase) : ℕ := w.data.rows.length

/-- The dunder `__eq__` (base.py lines 104-114): both operands wrappers, equal
underlying frames (`DataFrame.equals`), equal themes. -/
def vb_eq (a b : VisualizationBase) : Bool :=
  decide (a.data = b.data) && decide (a.theme = b.theme)

/-- The dunder `PlotEase.__lt__` (src/plotease/plotease.py lines 75-79):
`len(self._data) < len(other._data)`. -/
def plotease_lt (a b : VisualizationBase) : Bool := decide (vb_len a < vb_len b)

/-! ## Numeric summary (`SummaryGenerator.create_summary_table`,
src/LightenPlot/summary.py lines 89-107) -/

/-- Pandas `Series.count()`: the number of non-missing cells. -/
def seriesCount (xs : List (Option ℚ)) : ℕ := (dropna xs).length

/-- Pandas `Series.isnull().sum()`: the number of missing cells. -/
def seriesMissing (xs : List (Option ℚ)) : ℕ := xs.countP fun c => decide (c = none)

/-- The `'Missing %'` column of `create_summary_table` (summary.py line 96):
`isnull().sum() / len(col) * 100`. -/
def missingPct (xs : List (Option ℚ)) : ℚ :=
  (seriesMissing xs : ℚ) / (xs.length : ℚ) * 100

/-- Pandas `Series.mean()` with its default `skipna=True`: the mean of the
non-missing values. -/
def seriesMean (xs : List (Option ℚ)) : ℚ := mean (dropna xs)

/-! ## Model comparison (`ModelComparator`, src/plotease/comparator.py and
src/plotease/model_comp.py)

A `ModelMetrics` dictionary is modelled as an association list in insertion
order (Python dicts preserve insertion order), each model mapping to its own
metric association list. -/

/-- The model-results dictionary `{model: {metric: score}}`. -/
abbrev ModelMetrics := List (String × List (String × ℚ))

/-- Dictionary lookup `metrics[metric]` as used via `metric in metrics`. -/
def lookupMetric (metrics : List (String × ℚ)) (metric : String) : Option ℚ :=
  (metrics.find? fun p => p.1 == metric).map Prod.snd

/-- The collection loop of `_plot_single_metric` (model_comp.py lines
99-102): the models that have the metric, in insertion order, with their
scores. -/
def modelsWithMetric (models : ModelMetrics) (metric : String) : List (String × ℚ) :=
  models.filterMap fun m => (lookupMetric m.2 metric).map fun v => (m.1, v)

/-- The comparison used by `sorted(..., key=lambda x: x[1], reverse=True)`
(model_comp.py line 110): descending score. -/
def scoreGE (a b : String × ℚ) : Prop := b.2 ≤ a.2

instance : DecidableRel scoreGE := fun _ _ => inferInstanceAs (Decidable (_ ≤ _))

instance : IsTotal (String × ℚ) scoreGE := ⟨fun _ _ => le_total _ _⟩

instance : IsTrans (String × ℚ) scoreGE := ⟨fun _ _ _ h1 h2 => le_trans h2 h1⟩

/-- The ranking of `_plot_single_metric` (model_comp.py lines 108-111):
Python's `sorted` is stable, and `reverse=True` preserves the relative order
of ties, so the result is the stable descending-by-score sort of the eligible
models — which is exactly `insertionSort scoreGE`. -/
def rank_models (models : ModelMetrics) (metric : String) : List (String × ℚ) :=
  List.insertionSort scoreGE (modelsWithMetric models metric)

/-- The method `get_best_model` (src/plotease/comparator.py lines 121-137):
`self._df[metric].idxmax()` — the first model (in insertion order) attaining
the maximal score for the metric; models without the metric hold `NaN` there
and are skipped by `idxmax`. -/
def get_best_model (models : ModelMetrics) (metric : String) : Option String :=
  let elig := modelsWithMetric models metric
  (elig.find? fun p => elig.all fun q => decide (q.2 ≤ p.2)).map Prod.fst

/-! ## Export error wrapping (`safe_export`, src/Errorhandling/errors.py
lines 383-408) -/

/-- The exceptions the wrapped export call can raise: the I/O family caught by
the first `except` clause (`IOError`/`OSError`/`PermissionError`; permission
denied, missing directory, disk full all surface here), or any other
exception. -/
inductive PyException where
  | ioError (msg : String)
  | otherError (msg : String)
deriving DecidableEq

/-- The payload of `ExportError` (errors.py lines 73-75, 20-39): the `message`
and optional `suggestion` attributes of `LightenPlotError`. -/
structure ExportError where
  message : String
  suggestion : Option String
deriving DecidableEq

/-- The decorator `safe_export` (errors.py lines 383-408) applied to the
outcome of the wrapped figure-save call: I/O errors are re-raised as
`ExportError(f"Failed to save file: {e}", "Check file path, permissions, and
available disk space")`; any other exception as the `Unexpected error` form. -/
def safe_export {α : Type} (result : Except PyException α) : Except ExportError α :=
  match result with
  | .ok a => .ok a
  | .error (.ioError msg) =>
      .error ⟨"Failed to save file: " ++ msg,
        some "Check file path, permissions, and available disk space"⟩
  | .error (.otherError msg) =>
      .error ⟨"Unexpected error during export: " ++ msg,
        some "Ensure the file format is supported and the path is valid"⟩

/-! ## Helper lemmas -/

/-- A list of nonnegative rationals summing to zero is all zero. -/
theorem list_sum_nonneg_all_zero {l : List ℚ} (h0 : ∀ x ∈ l, 0 ≤ x)
    (hs : l.sum = 0) : ∀ x ∈ l, x = 0 := by
  induction l with
  | nil => simp
  | cons a t ih =>
    have hat : 0 ≤ a := h0 a (by simp)
    have hts : 0 ≤ t.sum := List.sum_nonneg fun x hx => h0 x (by simp [hx])
    have hsum : a + t.sum = 0 := by simpa using hs
    have ha : a = 0 := by linarith
    intro x hx
    rcases List.mem_cons.mp hx with rfl | hx
    · exact ha
    · exact ih (fun y hy => h0 y (by simp [hy])) (by linarith) x hx

/-- Zero sum of squared deviations forces every value to equal the mean. -/
theorem sumSqDev_eq_zero_forall {l : List ℚ} (h : sumSqDev l = 0) :
    ∀ x ∈ l, x = mean l := by
  intro x hx
  have h0 : ∀ y ∈ l.map fun z => (z - mean l) ^ 2, 0 ≤ y := by
    intro y hy
    obtain ⟨z, _, rfl⟩ := List.mem_map.mp hy
    positivity
  have hz := list_sum_nonneg_all_zero h0 h ((x - mean l) ^ 2)
    (List.mem_map_of_mem _ hx)
  have hx0 : x - mean l = 0 := by
    exact (pow_eq_zero_iff two_ne_zero).mp hz
  linarith

/-- If every value equals the mean, the sum of squared deviations is zero. -/
theorem sumSqDev_of_const {l : List ℚ} (h : ∀ x ∈ l, x = mean l) :
    sumSqDev l = 0 := by
  rw [sumSqDev, List.sum_eq_zero]
  intro y hy
  obtain ⟨z, hz, rfl⟩ := List.mem_map.mp hy
  rw [h z hz]
  ring

/-- A variance of `some 0` forces at least two values and a zero sum of
squared deviations. -/
theorem sampleVar_eq_zero {l : List ℚ} (h : sampleVar l = some 0) :
    2 ≤ l.length ∧ sumSqDev l = 0 := by
  by_cases hlen : l.length < 2
  · rw [sampleVar, if_pos hlen] at h
    exact absurd h (by simp)
  · rw [sampleVar, if_neg hlen] at h
    have hq : sumSqDev l / ((l.length : ℚ) - 1) = 0 := by
      simpa using h
    have hden : ((l.length : ℚ) - 1) ≠ 0 := by
      have h2 : 2 ≤ l.length := not_lt.mp hlen
      have h2q : (2 : ℚ) ≤ (l.length : ℚ) := by exact_mod_cast h2
      linarith
    refine ⟨not_lt.mp hlen, ?_⟩
    rcases div_eq_zero_iff.mp hq with h' | h'
    · exact h'
    · exact absurd h' hden

/-! ## C1 -/

/-- C1: on any input series whose non-missing values have zero (sample)
standard deviation, or fewer than two non-missing values, z-score outlier
detection returns an all-false flag sequence — the degenerate case produces
no outliers and no division error (the embedding is total; the float
division-by-zero of the source yields `NaN` comparisons that are all false,
matched here exactly). -/
theorem C1_zscore_degenerate_no_outliers (series : List (Option ℚ))
    (h : sampleVar (dropna series) = some 0 ∨ (dropna series).length < 2) :
    ∀ b ∈ outlier_detection "zscore" series, b = false := by
  intro b hb
  simp only [outlier_detection, if_neg (by decide : ¬ ("zscore" = "iqr"))] at hb
  rcases h with hv | hlen
  · obtain ⟨hlen2, hsse⟩ := sampleVar_eq_zero hv
    rw [zscoreFlags, hv] at hb
    obtain ⟨x, hx, hbx⟩ := List.mem_map.mp hb
    have hxm : x = mean (dropna series) := sumSqDev_eq_zero_forall hsse x hx
    rw [← hbx, hxm]
    simp
  · have hv : sampleVar (dropna series) = none := by
      rw [sampleVar, if_pos hlen]
    rw [zscoreFlags, hv] at hb
    obtain ⟨x, _, hbx⟩ := List.mem_map.mp hb
    exact hbx.symm

/-- Witness for C1 at the constant series `[5,5,5,5]` (zero variance, four
non-missing values). -/
theorem C1_witness :
    (sampleVar (dropna [some (5:ℚ), some 5, some 5, some 5]) = some 0
      ∨ (dropna [some (5:ℚ), some 5, some 5, some 5]).length < 2)
    ∧ ∀ b ∈ outlier_detection "zscore" [some (5:ℚ), some 5, some 5, some 5],
        b = false := by
  have hvar : sampleVar (dropna [some (5:ℚ), some 5, some 5, some 5]) = some 0 := by
    norm_num [sampleVar, dropna, sumSqDev, mean,
      List.filterMap_cons, List.filterMap_nil]
  exact ⟨Or.inl hvar, C1_zscore_degenerate_no_outliers _ (Or.inl hvar)⟩

/-! ## C2 -/

/-- C2: IQR outlier detection computes `Q1` and `Q3` on the non-missing
values and flags exactly the values strictly below `Q1 - 1.5·IQR` or strictly
above `Q3 + 1.5·IQR` (first conjunct); on `[1,2,3,4,5,100]` it flags exactly
index 5, the value 100 (second conjunct). -/
theorem C2_iqr_flags :
    (∀ series : List (Option ℚ),
      outlier_detection "iqr" series
        = (dropna series).map fun x =>
            decide (x < iqrLower (dropna series) ∨ iqrUpper (dropna series) < x))
    ∧ outlier_detection "iqr"
        [some (1:ℚ), some 2, some 3, some 4, some 5, some 100]
        = [false, false, false, false, false, true] := by
  have hunfold : ∀ series : List (Option ℚ),
      outlier_detection "iqr" series
        = (dropna series).map fun x =>
            decide (x < iqrLower (dropna series) ∨ iqrUpper (dropna series) < x) := by
    intro series
    simp [outlier_detection, detect_outliers_iqr]
  refine ⟨hunfold, ?_⟩
  rw [hunfold]
  have hdrop : dropna [some (1:ℚ), some 2, some 3, some 4, some 5, some 100]
      = [1, 2, 3, 4, 5, 100] := by
    norm_num [dropna, List.filterMap_cons, List.filterMap_nil]
  have hq1 : quantile [(1:ℚ), 2, 3, 4, 5, 100] (1/4) = 9/4 := by
    have hfl : (⌊(1:ℚ)/4 * (((6:ℕ) : ℚ) - 1)⌋) = 1 := by
      rw [Int.floor_eq_iff]
      norm_num
    unfold quantile
    norm_num [List.insertionSort, List.orderedInsert, hfl]
  have hq3 : quantile [(1:ℚ), 2, 3, 4, 5, 100] (3/4) = 19/4 := by
    have hfl : (⌊(3:ℚ)/4 * (((6:ℕ) : ℚ) - 1)⌋) = 3 := by
      rw [Int.floor_eq_iff]
      norm_num
    have ht : ((3:ℤ)).toNat = 3 := rfl
    unfold quantile
    norm_num [List.insertionSort, List.orderedInsert, hfl, ht]
  rw [hdrop]
  have hlb : iqrLower [(1:ℚ), 2, 3, 4, 5, 100] = -3/2 := by
    rw [iqrLower, hq1, hq3]
    norm_num
  have hub : iqrUpper [(1:ℚ), 2, 3, 4, 5, 100] = 17/2 := by
    rw [iqrUpper, hq1, hq3]
    norm_num
  rw [List.map_cons, List.map_cons, List.map_cons, List.map_cons, List.map_cons,
    List.map_cons, List.map_nil, hlb, hub]
  norm_num

/-! ## C10 -/

/-- C10: every method string other than exactly `"iqr"` (unknown or
misspelled names included) silently selects the z-score method with its fixed
threshold 3; the dispatch raises no error for an unrecognised name (the
embedded detection is a total function and the source's `else` branch has no
raise path). -/
theorem C10_unknown_method_uses_zscore (method : String) (h : method ≠ "iqr")
    (series : List (Option ℚ)) :
    outlier_detection method series = zscoreFlags (dropna series) := by
  simp [outlier_detection, h]

/-- Witness for C10 at the misspelled method name `"IQR"` (case differs from
`"iqr"`). -/
theorem C10_witness :
    ("IQR" ≠ "iqr")
    ∧ outlier_detection "IQR" [some (1:ℚ), some 2, some 42]
        = zscoreFlags (dropna [some (1:ℚ), some 2, some 42]) :=
  ⟨by decide, C10_unknown_method_uses_zscore "IQR" (by decide) _⟩

/-! ## C5 -/

/-- C5: `len(wrapper)` equals the row count of its data; two wrappers over
equal underlying frames with the same theme compare equal under `==`; and for
wrappers with different row counts, `a < b` holds iff
`row_count(a) < row_count(b)`. -/
theorem C5_dunder_semantics (a b : VisualizationBase) :
    vb_len a = a.data.rows.length
    ∧ (a.data = b.data → a.theme = b.theme → vb_eq a b = true)
    ∧ (vb_len a ≠ vb_len b → (plotease_lt a b = true ↔ vb_len a < vb_len b)) := by
  refine ⟨rfl, ?_, ?_⟩
  · intro h1 h2
    simp [vb_eq, h1, h2]
  · intro _
    simp [plotease_lt]

/-- Witness for C5: equal one-row frames with the same theme compare equal;
a one-row wrapper versus a two-row wrapper orders by row count. -/
theorem C5_witness :
    vb_eq ⟨⟨["x"], [[some 1]]⟩, "default"⟩ ⟨⟨["x"], [[some 1]]⟩, "default"⟩ = true
    ∧ (plotease_lt ⟨⟨["x"], [[some 1]]⟩, "default"⟩
          ⟨⟨["x"], [[some 1], [some 2]]⟩, "dark"⟩ = true
        ↔ vb_len ⟨⟨["x"], [[some 1]]⟩, "default"⟩
            < vb_len ⟨⟨["x"], [[some 1], [some 2]]⟩, "dark"⟩) :=
  ⟨(C5_dunder_semantics _ _).2.1 rfl rfl,
   (C5_dunder_semantics _ _).2.2 (by decide)⟩

/-! ## C6 -/

/-- C6: constructing the dataset wrapper from a non-DataFrame value always
fails with the `InvalidDataType` kind; from a zero-row frame always with the
`EmptyDataset` kind; and construction succeeds only on a frame that is not
empty. -/
theorem C6_construction_validation (theme : String) :
    (mk_visualization .nonFrame theme = .error .invalidDataType)
    ∧ (∀ d : DataFrame, d.rows.length = 0 →
        mk_visualization (.frame d) theme = .error .emptyDataset)
    ∧ (∀ v w, mk_visualization v theme = .ok w →
        ∃ d : DataFrame, v = .frame d ∧ d.isEmpty = false) := by
  refine ⟨rfl, ?_, ?_⟩
  · intro d hd
    have hrows : d.rows = [] := List.length_eq_zero.mp hd
    have he : d.isEmpty = true := by
      simp [DataFrame.isEmpty, hrows]
    simp [mk_visualization, he]
  · intro v w h
    cases v with
    | nonFrame => simp [mk_visualization] at h
    | frame d =>
      refine ⟨d, rfl, ?_⟩
      by_cases he : d.isEmpty = true
      · simp [mk_visualization, he] at h
      · simpa using he

/-- Witness for C6: a non-frame input, a zero-row frame, and a successful
construction from a one-row frame. -/
theorem C6_witness :
    mk_visualization .nonFrame "default" = .error .invalidDataType
    ∧ mk_visualization (.frame ⟨["a"], []⟩) "default" = .error .emptyDataset
    ∧ ∃ d : DataFrame, PyObject.frame ⟨["a"], [[some 1]]⟩ = .frame d
        ∧ d.isEmpty = false :=
  ⟨(C6_construction_validation "default").1,
   (C6_construction_validation "default").2.1 ⟨["a"], []⟩ rfl,
   (C6_construction_validation "default").2.2 (.frame ⟨["a"], [[some 1]]⟩)
     ⟨⟨["a"], [[some 1]]⟩, "default"⟩ rfl⟩

/-! ## C7 -/

/-- C7: on the column `[1, 2, 3, None, 5]` the numeric summary reports
count 4, missing 1, missing percentage 20.0 and mean 2.75; and in general the
count and mean are computed over the non-missing values only — missing values
are excluded, never imputed. -/
theorem C7_numeric_summary :
    (seriesCount [some (1:ℚ), some 2, some 3, none, some 5] = 4
      ∧ seriesMissing [some (1:ℚ), some 2, some 3, none, some 5] = 1
      ∧ missingPct [some (1:ℚ), some 2, some 3, none, some 5] = 20
      ∧ seriesMean [some (1:ℚ), some 2, some 3, none, some 5] = 2.75)
    ∧ ∀ xs : List (Option ℚ),
        seriesMean xs = mean (dropna xs) ∧ seriesCount xs = (dropna xs).length := by
  refine ⟨⟨rfl, rfl, ?_, ?_⟩, fun xs => ⟨rfl, rfl⟩⟩
  · norm_num [missingPct, seriesMissing, List.countP_cons, Option.some_ne_none]
  · norm_num [seriesMean, dropna, mean, List.filterMap_cons]

/-! ## C9 -/

/-- C9: a figure-save call that hits an I/O error (the caught
`IOError`/`OSError`/`PermissionError` family: permission denied, missing
directory, disk full) always fails with the `ExportError` kind, whose message
wraps the underlying I/O error's message and whose suggestion is the fixed
human-readable remediation string. -/
theorem C9_export_failure (msg : String) :
    safe_export (α := Unit) (.error (.ioError msg))
      = .error ⟨"Failed to save file: " ++ msg,
          some "Check file path, permissions, and available disk space"⟩ := rfl

/-! ## C8 -/

/-- C8: for every model-metrics mapping and metric, the ranking used by the
comparison plot is the eligible models sorted in descending order of their
score for that metric (first conjunct: sorted; second: it is a rearrangement
of exactly the eligible models; third: the sort is stable — a tied pair keeps
its insertion order); the best model for a metric is the first one attaining
the maximal score (fourth conjunct); and on
`{'X': {'acc': 0.9}, 'Y': {'acc': 0.8}}` the ranking is `['X', 'Y']` and
`get_best_model('acc')` returns `'X'` (fifth conjunct). -/
theorem C8_model_ranking (models : ModelMetrics) (metric : String) :
    (rank_models models metric).Sorted scoreGE
    ∧ List.Perm (rank_models models metric) (modelsWithMetric models metric)
    ∧ (∀ a b : String × ℚ, a.2 = b.2 →
        List.Sublist [a, b] (modelsWithMetric models metric) →
        List.Sublist [a, b] (rank_models models metric))
    ∧ (∀ n, get_best_model models metric = some n →
        ∃ s, (n, s) ∈ modelsWithMetric models metric
          ∧ ∀ q ∈ modelsWithMetric models metric, q.2 ≤ s)
    ∧ (rank_models [("X", [("acc", 0.9)]), ("Y", [("acc", 0.8)])] "acc"
          = [("X", 0.9), ("Y", 0.8)]
        ∧ get_best_model [("X", [("acc", 0.9)]), ("Y", [("acc", 0.8)])] "acc"
          = some "X") := by
  refine ⟨List.sorted_insertionSort scoreGE _, List.perm_insertionSort scoreGE _,
    ?_, ?_, ?_, ?_⟩
  · intro a b hab hsub
    exact List.pair_sublist_insertionSort (le_of_eq hab.symm) hsub
  · intro n h
    rw [get_best_model] at h
    obtain ⟨p, hp, hpn⟩ := Option.map_eq_some'.mp h
    have hmem := List.mem_of_find?_eq_some hp
    have hpred := List.find?_some hp
    refine ⟨p.2, ?_, ?_⟩
    · rw [← hpn]
      exact hmem
    · intro q hq
      have := List.all_eq_true.mp hpred q hq
      simpa using this
  · norm_num [rank_models, modelsWithMetric, lookupMetric, List.find?,
      List.insertionSort, List.orderedInsert, scoreGE]
  · norm_num [get_best_model, modelsWithMetric, lookupMetric, List.find?,
      List.all_cons]

/-- Witness for C8: the tie-stability clause applied to two models tied at
score 1 (keeping insertion order `A` before `B`), and the best-model clause
applied to the example dictionary. -/
theorem C8_witness :
    List.Sublist [("A", (1:ℚ)), ("B", 1)]
        (rank_models [("A", [("m", (1:ℚ))]), ("B", [("m", 1)])] "m")
    ∧ ∃ s, ("X", s) ∈ modelsWithMetric
          [("X", [("acc", (0.9:ℚ))]), ("Y", [("acc", 0.8)])] "acc"
        ∧ ∀ q ∈ modelsWithMetric
            [("X", [("acc", (0.9:ℚ))]), ("Y", [("acc", 0.8)])] "acc", q.2 ≤ s := by
  constructor
  · have hm : modelsWithMetric [("A", [("m", (1:ℚ))]), ("B", [("m", 1)])] "m"
        = [("A", (1:ℚ)), ("B", 1)] := by
      norm_num [modelsWithMetric, lookupMetric, List.filterMap_cons,
        List.find?_cons, beq_iff_eq]
    exact (C8_model_ranking [("A", [("m", (1:ℚ))]), ("B", [("m", 1)])] "m").2.2.1
      ("A", (1:ℚ)) ("B", 1) rfl (hm ▸ List.Sublist.refl _)
  · exact (C8_model_ranking [("X", [("acc", (0.9:ℚ))]), ("Y", [("acc", 0.8)])]
      "acc").2.2.2.1 "X"
      (by norm_num [get_best_model, modelsWithMetric, lookupMetric, List.find?,
        List.all_cons])

/-! ## C4 -/

/-- C4: the high-correlation report contains exactly the upper-triangle pairs
(diagonal excluded) whose absolute correlation is at least the threshold
(first conjunct: membership characterisation), sorted in descending order of
absolute value (second conjunct); on the matrix with correlations
(A,B) = 0.9, (A,C) = -0.95, (B,C) = 0.3 and threshold 0.5 the report is
`[(A, C, -0.95), (A, B, 0.9)]` (third conjunct). -/
theorem C4_high_correlation_pairs (names : List String) (M : List (List ℚ)) (t : ℚ) :
    (∀ e : CorrEntry,
      e ∈ correlation_summary_pairs names M t
        ↔ ∃ i j, i < j ∧ j < names.length ∧ t ≤ |qEntry M i j|
            ∧ e = ⟨names.getD i "", names.getD j "", qEntry M i j⟩)
    ∧ (correlation_summary_pairs names M t).Sorted absGE
    ∧ correlation_summary_pairs ["A", "B", "C"]
        [[1, 0.9, -0.95], [0.9, 1, 0.3], [-0.95, 0.3, 1]] 0.5
        = [⟨"A", "C", -0.95⟩, ⟨"A", "B", 0.9⟩] := by
  refine ⟨?_, List.sorted_insertionSort absGE _, ?_⟩
  · intro e
    rw [correlation_summary_pairs, List.mem_insertionSort, collectHighCorr]
    simp only [List.mem_flatMap, List.mem_filterMap, List.mem_range]
    constructor
    · rintro ⟨i, hi, j, hj, hij⟩
      by_cases hc : i < j ∧ t ≤ |qEntry M i j|
      · rw [if_pos hc] at hij
        exact ⟨i, j, hc.1, hj, hc.2, (Option.some.inj hij).symm⟩
      · rw [if_neg hc] at hij
        cases hij
    · rintro ⟨i, j, hij, hj, ht, rfl⟩
      exact ⟨i, lt_trans hij hj, j, hj, by rw [if_pos ⟨hij, ht⟩]⟩
  · have hr : List.range 3 = [0, 1, 2] := rfl
    have h1 : |(9:ℚ)/10| = 9/10 := abs_of_nonneg (by norm_num)
    have h2 : |(19:ℚ)/20| = 19/20 := abs_of_nonneg (by norm_num)
    have h3 : |(3:ℚ)/10| = 3/10 := abs_of_nonneg (by norm_num)
    norm_num [correlation_summary_pairs, collectHighCorr, qEntry, hr,
      List.flatMap_cons, List.flatMap_nil, List.filterMap_cons,
      List.insertionSort, List.orderedInsert, absGE, h1, h2, h3]

/-! ## C3 helper lemmas -/

/-- The sum of squared deviations is nonnegative. -/
theorem sumSqDev_nonneg (l : List ℚ) : 0 ≤ sumSqDev l := by
  apply List.sum_nonneg
  intro x hx
  obtain ⟨z, _, rfl⟩ := List.mem_map.mp hx
  positivity

/-- Zipping a list with itself duplicates each element. -/
theorem zip_self {α : Type*} (l : List α) : l.zip l = l.map fun a => (a, a) := by
  induction l with
  | nil => rfl
  | cons a t ih => simp [List.zip_cons_cons, ih]

/-- On the diagonal the covariance numerator is the sum of squared
deviations. -/
theorem covSum_self (x : List ℚ) : covSum x x = sumSqDev x := by
  rw [covSum, sumSqDev, zip_self, List.map_map]
  apply congrArg List.sum
  apply List.map_congr_left
  intro a _
  simp only [Function.comp_apply]
  ring

/-- The covariance numerator is symmetric. -/
theorem covSum_symm (x y : List ℚ) : covSum x y = covSum y x := by
  rw [covSum, covSum, ← List.zip_swap y x, List.map_map]
  apply congrArg List.sum
  apply List.map_congr_left
  intro p _
  simp only [Function.comp_apply, Prod.swap]
  ring

/-- Pearson correlation is symmetric in its two columns. -/
theorem pearsonCorr_symm (x y : List ℚ) : pearsonCorr x y = pearsonCorr y x := by
  rw [pearsonCorr, pearsonCorr, covSum_symm, mul_comm (sumSqDev x) (sumSqDev y)]

/-- Pearson self-correlation is exactly 1 for a column with nonzero sum of
squared deviations. -/
theorem pearsonCorr_self {x : List ℚ} (h : sumSqDev x ≠ 0) :
    pearsonCorr x x = some 1 := by
  have hpos : 0 < sumSqDev x := lt_of_le_of_ne (sumSqDev_nonneg x) (Ne.symm h)
  rw [pearsonCorr, if_neg (by exact fun hc => h (by nlinarith)), covSum_self]
  congr 1
  have hcast : ((sumSqDev x * sumSqDev x : ℚ) : ℝ)
      = (sumSqDev x : ℝ) * (sumSqDev x : ℝ) := by push_cast; ring
  rw [hcast, Real.sqrt_mul_self (by positivity), div_self (by exact_mod_cast h)]

/-- A strict counting inequality: if `p` implies `q` on the list and some
member satisfies `q` but not `p`, then `q` counts strictly more. -/
theorem countP_lt_countP {α : Type*} {l : List α} {p q : α → Bool}
    (hpq : ∀ x ∈ l, p x → q x) {a : α} (ha : a ∈ l) (hqa : q a) (hpa : ¬ p a) :
    l.countP p < l.countP q := by
  induction l with
  | nil => cases ha
  | cons b t ih =>
    rw [List.countP_cons, List.countP_cons]
    rcases List.mem_cons.mp ha with rfl | hat
    · have h1 : t.countP p ≤ t.countP q :=
        List.countP_mono_left fun x hx => hpq x (by simp [hx])
      have hpa' : p a = false := by simpa using hpa
      simp [hpa', hqa]
      omega
    · have h1 := ih (fun x hx => hpq x (by simp [hx])) hat
      by_cases hpb : p b = true
      · have hqb : q b = true := hpq b (by simp) hpb
        rw [if_pos hpb, if_pos hqb]
        omega
      · rw [if_neg hpb]
        split <;> omega

/-- Average ranks are strictly monotone over members of the list. -/
theorem rankOf_strict_mono {l : List ℚ} {a b : ℚ} (ha : a ∈ l) (hab : a < b) :
    rankOf l a < rankOf l b := by
  have h1 : (l.countP fun y => decide (y < a)) < l.countP fun y => decide (y < b) := by
    refine countP_lt_countP (fun x _ hx => ?_) ha (decide_eq_true hab) (by simp)
    have hx' : x < a := of_decide_eq_true hx
    exact decide_eq_true (lt_trans hx' hab)
  have h2 : (l.countP fun y => decide (y ≤ a)) ≤ l.countP fun y => decide (y ≤ b) := by
    refine List.countP_mono_left fun x _ hx => ?_
    have hx' : x ≤ a := of_decide_eq_true hx
    exact decide_eq_true (le_trans hx' (le_of_lt hab))
  rw [rankOf, rankOf]
  have h1q : (((l.countP fun y => decide (y < a)) : ℕ) : ℚ)
      < (((l.countP fun y => decide (y < b)) : ℕ) : ℚ) := by exact_mod_cast h1
  have h2q : (((l.countP fun y => decide (y ≤ a)) : ℕ) : ℚ)
      ≤ (((l.countP fun y => decide (y ≤ b)) : ℕ) : ℚ) := by exact_mod_cast h2
  linarith

/-- A constant list sums to length times the constant. -/
theorem sum_const_list {l : List ℚ} {c : ℚ} (h : ∀ y ∈ l, y = c) :
    l.sum = (l.length : ℚ) * c := by
  induction l with
  | nil => simp
  | cons a t ih =>
    have ha : a = c := h a (by simp)
    have ht := ih fun y hy => h y (by simp [hy])
    simp only [List.sum_cons, List.length_cons, ha, ht]
    push_cast
    ring

/-- A nonzero sum of squared deviations yields two strictly ordered members. -/
theorem exists_lt_pair_of_sumSqDev_ne_zero {l : List ℚ} (h : sumSqDev l ≠ 0) :
    ∃ a ∈ l, ∃ b ∈ l, a < b := by
  by_contra hc
  push_neg at hc
  apply h
  cases l with
  | nil => simp [sumSqDev]
  | cons a t =>
    apply sumSqDev_of_const
    have hall : ∀ y ∈ a :: t, y = a := fun y hy =>
      le_antisymm (hc a (by simp) y hy) (hc y hy a (by simp))
    have hlen : ((a :: t).length : ℚ) ≠ 0 := by
      simp only [List.length_cons]
      push_cast
      intro hz
      have h0 : (0:ℚ) ≤ (t.length : ℚ) := Nat.cast_nonneg _
      linarith
    have hmean : mean (a :: t) = a := by
      rw [mean, sum_const_list hall, mul_div_assoc]
      field_simp
    intro x hx
    rw [hmean]
    exact hall x hx

/-- Ranks of a column with nonzero spread themselves have nonzero spread. -/
theorem sumSqDev_ranks_ne_zero {x : List ℚ} (h : sumSqDev x ≠ 0) :
    sumSqDev (ranks x) ≠ 0 := by
  obtain ⟨a, ha, b, hb, hab⟩ := exists_lt_pair_of_sumSqDev_ne_zero h
  intro hzero
  have hall := sumSqDev_eq_zero_forall hzero
  have hra : rankOf x a ∈ ranks x := List.mem_map_of_mem _ ha
  have hrb : rankOf x b ∈ ranks x := List.mem_map_of_mem _ hb
  have hlt := rankOf_strict_mono ha hab
  rw [hall _ hra, hall _ hrb] at hlt
  exact lt_irrefl _ hlt

/-- Spearman correlation is symmetric. -/
theorem spearmanCorr_symm (x y : List ℚ) : spearmanCorr x y = spearmanCorr y x :=
  pearsonCorr_symm _ _

/-- Spearman self-correlation is exactly 1 for a column with nonzero sum of
squared deviations. -/
theorem spearmanCorr_self {x : List ℚ} (h : sumSqDev x ≠ 0) :
    spearmanCorr x x = some 1 :=
  pearsonCorr_self (sumSqDev_ranks_ne_zero h)

/-- Index pairs of a mapped list are the mapped index pairs. -/
theorem offDiagPairs_map {α β : Type*} (f : α → β) (l : List α) :
    offDiagPairs (l.map f) = (offDiagPairs l).map fun p => (f p.1, f p.2) := by
  induction l with
  | nil => rfl
  | cons a t ih =>
    simp [offDiagPairs, ih, List.map_map, Function.comp]

/-- Any two members of a list are equal or appear (in one order) as an index
pair. -/
theorem mem_offDiagPairs_total {α : Type*} {l : List α} {a b : α}
    (ha : a ∈ l) (hb : b ∈ l) :
    a = b ∨ (a, b) ∈ offDiagPairs l ∨ (b, a) ∈ offDiagPairs l := by
  induction l with
  | nil => cases ha
  | cons c t ih =>
    rcases List.mem_cons.mp ha with rfl | hat
    · rcases List.mem_cons.mp hb with rfl | hbt
      · exact Or.inl rfl
      · refine Or.inr (Or.inl ?_)
        rw [offDiagPairs, List.mem_append]
        exact Or.inl (List.mem_map_of_mem _ hbt)
    · rcases List.mem_cons.mp hb with rfl | hbt
      · refine Or.inr (Or.inr ?_)
        rw [offDiagPairs, List.mem_append]
        exact Or.inl (List.mem_map_of_mem _ hat)
      · rcases ih hat hbt with h | h | h
        · exact Or.inl h
        · refine Or.inr (Or.inl ?_)
          rw [offDiagPairs, List.mem_append]
          exact Or.inr h
        · refine Or.inr (Or.inr ?_)
          rw [offDiagPairs, List.mem_append]
          exact Or.inr h

/-- Counting over the diagonal zip reduces to counting over index pairs of
the single column. -/
theorem countP_offDiag_self (x : List ℚ) (pred : (ℚ × ℚ) × (ℚ × ℚ) → Bool)
    (q : ℚ × ℚ → Bool) (hcong : ∀ a b : ℚ, pred ((a, a), (b, b)) = q (a, b)) :
    (offDiagPairs (x.zip x)).countP pred = (offDiagPairs x).countP q := by
  rw [zip_self, offDiagPairs_map, List.countP_map]
  apply List.countP_congr
  intro p _
  simp only [Function.comp_apply]
  rw [hcong p.1 p.2]

/-- Counting over the reversed zip reduces to counting over the original zip
with the roles of the two coordinates swapped. -/
theorem countP_offDiag_swap (x y : List ℚ) (pred pq : (ℚ × ℚ) × (ℚ × ℚ) → Bool)
    (hcong : ∀ p : (ℚ × ℚ) × (ℚ × ℚ),
      pred ((p.1.2, p.1.1), (p.2.2, p.2.1)) = pq p) :
    (offDiagPairs (y.zip x)).countP pred = (offDiagPairs (x.zip y)).countP pq := by
  rw [← List.zip_swap x y, offDiagPairs_map, List.countP_map]
  apply List.countP_congr
  intro p _
  simp only [Function.comp_apply]
  rw [show Prod.swap p.1 = (p.1.2, p.1.1) from rfl,
    show Prod.swap p.2 = (p.2.2, p.2.1) from rfl, hcong]

/-- The reversed zip has as many index pairs as the original. -/
theorem length_offDiag_swap (x y : List ℚ) :
    (offDiagPairs (y.zip x)).length = (offDiagPairs (x.zip y)).length := by
  rw [← List.zip_swap x y, offDiagPairs_map, List.length_map]

/-- Kendall correlation is symmetric in its two columns. -/
theorem kendallCorr_symm (x y : List ℚ) : kendallCorr x y = kendallCorr y x := by
  simp only [kendallCorr]
  rw [countP_offDiag_swap x y
      (fun p => decide (0 < (p.1.1 - p.2.1) * (p.1.2 - p.2.2)))
      (fun p => decide (0 < (p.1.1 - p.2.1) * (p.1.2 - p.2.2)))
      (fun p => by rw [decide_eq_decide, mul_comm]),
    countP_offDiag_swap x y
      (fun p => decide ((p.1.1 - p.2.1) * (p.1.2 - p.2.2) < 0))
      (fun p => decide ((p.1.1 - p.2.1) * (p.1.2 - p.2.2) < 0))
      (fun p => by rw [decide_eq_decide, mul_comm]),
    countP_offDiag_swap x y
      (fun p => decide (p.1.1 = p.2.1))
      (fun p => decide (p.1.2 = p.2.2))
      (fun p => rfl),
    countP_offDiag_swap x y
      (fun p => decide (p.1.2 = p.2.2))
      (fun p => decide (p.1.1 = p.2.1))
      (fun p => rfl),
    length_offDiag_swap x y]
  have hswap : ∀ (a b : ℚ) (u : ℝ),
      (if a * b = 0 then (none : Option ℝ)
        else some (u / Real.sqrt ((a * b : ℚ) : ℝ)))
      = if b * a = 0 then none
        else some (u / Real.sqrt ((b * a : ℚ) : ℝ)) := by
    intro a b u
    rw [mul_comm]
  exact hswap _ _ _

/-- Kendall self-correlation is exactly 1 for a column with nonzero sum of
squared deviations. -/
theorem kendallCorr_self {x : List ℚ} (h : sumSqDev x ≠ 0) :
    kendallCorr x x = some 1 := by
  obtain ⟨a, ha, b, hb, hab⟩ := exists_lt_pair_of_sumSqDev_ne_zero h
  simp only [kendallCorr]
  rw [countP_offDiag_self x
      (fun p => decide (0 < (p.1.1 - p.2.1) * (p.1.2 - p.2.2)))
      (fun p => !(decide (p.1 = p.2)))
      (fun c d => by
        by_cases hcd : c = d
        · simp [hcd]
        · have hpos : 0 < (c - d) * (c - d) :=
            mul_self_pos.mpr (sub_ne_zero.mpr hcd)
          simp [hcd, hpos]),
    countP_offDiag_self x
      (fun p => decide ((p.1.1 - p.2.1) * (p.1.2 - p.2.2) < 0))
      (fun _ => false)
      (fun c d => decide_eq_false (not_lt.mpr (mul_self_nonneg _))),
    countP_offDiag_self x
      (fun p => decide (p.1.1 = p.2.1))
      (fun p => decide (p.1 = p.2))
      (fun c d => rfl),
    countP_offDiag_self x
      (fun p => decide (p.1.2 = p.2.2))
      (fun p => decide (p.1 = p.2))
      (fun c d => rfl),
    zip_self, offDiagPairs_map, List.length_map, List.countP_false]
  set n0 := (offDiagPairs x).length with hn0
  set T := (offDiagPairs x).countP (fun p => decide (p.1 = p.2)) with hT
  set P := (offDiagPairs x).countP (fun p => !(decide (p.1 = p.2))) with hP
  have hsplit : n0 = T + P := by
    rw [hn0, hT, hP,
      List.length_eq_countP_add_countP (p := fun p : ℚ × ℚ => decide (p.1 = p.2))]
    congr 1
    apply List.countP_congr
    intro p _
    simp
  have hPpos : 0 < P := by
    rw [hP]
    apply List.countP_pos_iff.mpr
    rcases mem_offDiagPairs_total ha hb with hE | hm | hm
    · exact absurd hE (ne_of_lt hab)
    · exact ⟨(a, b), hm, by simp [ne_of_lt hab]⟩
    · exact ⟨(b, a), hm, by simp [(ne_of_lt hab).symm]⟩
  have hPq : ((n0 : ℚ) - (T : ℚ)) = (P : ℚ) := by
    rw [hsplit]
    push_cast
    ring
  rw [hPq]
  have hPne : ((P : ℚ)) ≠ 0 := by
    exact_mod_cast Nat.pos_iff_ne_zero.mp hPpos
  rw [if_neg (mul_ne_zero hPne hPne)]
  have hcast : (((P : ℚ) * (P : ℚ) : ℚ) : ℝ) = (P : ℝ) * (P : ℝ) := by
    push_cast
    ring
  rw [hcast, Real.sqrt_mul_self (by positivity)]
  have hPneR : ((P : ℝ)) ≠ 0 := by exact_mod_cast hPne
  simp only [Function.const_apply, Nat.cast_zero, sub_zero]
  rw [div_self hPneR]

/-- Each supported method's pairwise correlation is symmetric. -/
theorem corrFn_symm (m : CorrMethod) (x y : List ℚ) : corrFn m x y = corrFn m y x := by
  cases m with
  | pearson => exact pearsonCorr_symm x y
  | spearman => exact spearmanCorr_symm x y
  | kendall => exact kendallCorr_symm x y

/-- Each supported method's self-correlation is exactly 1 on a column with
nonzero sum of squared deviations. -/
theorem corrFn_self {x : List ℚ} (m : CorrMethod) (h : sumSqDev x ≠ 0) :
    corrFn m x x = some 1 := by
  cases m with
  | pearson => exact pearsonCorr_self h
  | spearman => exact spearmanCorr_self h
  | kendall => exact kendallCorr_self h

/-- In the degenerate case (zero sum of squared deviations) the Pearson
self-correlation is `NaN`. -/
theorem pearsonCorr_self_degenerate {c : List ℚ} (h : sumSqDev c = 0) :
    pearsonCorr c c = none := by
  rw [pearsonCorr, if_pos (by rw [h]; ring)]

/-- A zero-spread column has zero-spread ranks. -/
theorem sumSqDev_ranks_eq_zero {c : List ℚ} (h : sumSqDev c = 0) :
    sumSqDev (ranks c) = 0 := by
  by_contra hne
  obtain ⟨a, ha, b, hb, hab⟩ := exists_lt_pair_of_sumSqDev_ne_zero hne
  obtain ⟨x, hx, rfl⟩ := List.mem_map.mp ha
  obtain ⟨y, hy, rfl⟩ := List.mem_map.mp hb
  rw [sumSqDev_eq_zero_forall h x hx, sumSqDev_eq_zero_forall h y hy] at hab
  exact lt_irrefl _ hab

/-- In the degenerate case the Spearman self-correlation is `NaN`. -/
theorem spearmanCorr_self_degenerate {c : List ℚ} (h : sumSqDev c = 0) :
    spearmanCorr c c = none :=
  pearsonCorr_self_degenerate (sumSqDev_ranks_eq_zero h)

/-- In-bounds entries of the pearson/spearman correlation matrix are the
pairwise correlations (their Cython kernels apply the formula to every pair,
the diagonal included). -/
theorem correlation_matrix_entry (m : CorrMethod) (cols : List (List ℚ))
    (hm : m ≠ CorrMethod.kendall) {i j : ℕ}
    (hi : i < cols.length) (hj : j < cols.length) :
    matrixEntry (correlation_matrix m cols) i j
      = corrFn m (cols.getD i []) (cols.getD j []) := by
  rw [matrixEntry, correlation_matrix, if_neg hm]
  simp only [List.getD_eq_getElem?_getD, List.getElem?_map,
    List.getElem?_eq_getElem hi, List.getElem?_eq_getElem hj,
    Option.map_some', Option.getD_some]

/-- In-bounds entries of the kendall correlation matrix: the hard-coded
diagonal of the generic pandas path, and the pairwise tau-b off the
diagonal. -/
theorem correlation_matrix_kendall_entry (cols : List (List ℚ)) {i j : ℕ}
    (hi : i < cols.length) (hj : j < cols.length) :
    matrixEntry (correlation_matrix CorrMethod.kendall cols) i j
      = if i = j then (if cols.getD i [] = [] then none else some 1)
        else kendallCorr (cols.getD i []) (cols.getD j []) := by
  rw [matrixEntry, correlation_matrix, if_pos rfl]
  simp only [List.getD_eq_getElem?_getD, List.getElem?_map,
    List.getElem?_range hi, List.getElem?_range hj,
    Option.map_some', Option.getD_some]

/-- Out-of-bounds entries of the correlation matrix are `none`, for every
method. -/
theorem correlation_matrix_entry_oob (m : CorrMethod) (cols : List (List ℚ))
    {i j : ℕ} (h : cols.length ≤ i ∨ cols.length ≤ j) :
    matrixEntry (correlation_matrix m cols) i j = none := by
  by_cases hm : m = CorrMethod.kendall
  · have hrnone : ∀ k, cols.length ≤ k → (List.range cols.length)[k]? = none := by
      intro k hk
      exact List.getElem?_eq_none (by simpa using hk)
    rcases h with hi | hj
    · rw [matrixEntry, correlation_matrix, if_pos hm]
      simp only [List.getD_eq_getElem?_getD]
      rw [List.getElem?_map, hrnone i hi]
      simp
    · by_cases hi : i < cols.length
      · rw [matrixEntry, correlation_matrix, if_pos hm]
        simp only [List.getD_eq_getElem?_getD]
        rw [List.getElem?_map, List.getElem?_range hi]
        simp only [Option.map_some', Option.getD_some]
        rw [List.getElem?_map, hrnone j hj]
        simp
      · rw [matrixEntry, correlation_matrix, if_pos hm]
        simp only [List.getD_eq_getElem?_getD]
        rw [List.getElem?_map, hrnone i (not_lt.mp hi)]
        simp
  · rcases h with hi | hj
    · have hnone : cols[i]? = none := List.getElem?_eq_none hi
      rw [matrixEntry, correlation_matrix, if_neg hm]
      simp only [List.getD_eq_getElem?_getD]
      rw [List.getElem?_map, hnone]
      simp
    · by_cases hi : i < cols.length
      · have hnone : cols[j]? = none := List.getElem?_eq_none hj
        rw [matrixEntry, correlation_matrix, if_neg hm]
        simp only [List.getD_eq_getElem?_getD]
        rw [List.getElem?_map, List.getElem?_eq_getElem hi]
        simp only [Option.map_some', Option.getD_some]
        rw [List.getElem?_map, hnone]
        simp
      · have hnone : cols[i]? = none := List.getElem?_eq_none (not_lt.mp hi)
        rw [matrixEntry, correlation_matrix, if_neg hm]
        simp only [List.getD_eq_getElem?_getD]
        rw [List.getElem?_map, hnone]
        simp

/-! ## C3 -/

/-- C3 counterexample: on a dataset whose single numeric column is the
constant `[1, 1]`, the pearson correlation matrix carries `NaN` (modelled
`none`), not `1.0`, on its diagonal — the pearson kernel computes the
diagonal through the same `cov/sqrt(ssqdm²)` division, whose divisor is zero
for a zero-variance column, so the claim fails as stated. -/
theorem C3_counterexample :
    matrixEntry (correlation_matrix .pearson [[(1:ℚ), 1]]) 0 0 = none
    ∧ matrixEntry (correlation_matrix .pearson [[(1:ℚ), 1]]) 0 0 ≠ some 1 := by
  have hzero : sumSqDev [(1:ℚ), 1] = 0 := by
    norm_num [sumSqDev, mean]
  have h : matrixEntry (correlation_matrix .pearson [[(1:ℚ), 1]]) 0 0 = none := by
    rw [correlation_matrix_entry CorrMethod.pearson [[(1:ℚ), 1]]
      (by intro hc; cases hc) (by norm_num) (by norm_num)]
    rw [show ([[(1:ℚ), 1]] : List (List ℚ)).getD 0 [] = [(1:ℚ), 1] from rfl]
    rw [show corrFn CorrMethod.pearson = pearsonCorr from rfl]
    rw [pearsonCorr, if_pos (by rw [hzero]; ring)]
  exact ⟨h, by rw [h]; exact fun hc => Option.noConfusion hc⟩

/-- C3 (amended): for every dataset (list of numeric columns) and each
supported method (pearson, spearman, kendall), the correlation matrix is
n-by-n and symmetric; the diagonal follows the method's computation path:
for pearson and spearman the diagonal entry is exactly 1.0 when the column
has nonzero variance and `NaN` when the variance is zero (those kernels
compute the diagonal by the same `cov/sqrt` division — the counterexample
refutes the original unconditional claim), while for kendall the generic
pandas path hard-codes the diagonal to exactly 1.0 for every nonempty
column, with `NaN` only for a zero-row column. -/
theorem C3_correlation_matrix (m : CorrMethod) (cols : List (List ℚ)) :
    ((correlation_matrix m cols).length = cols.length
      ∧ ∀ row ∈ correlation_matrix m cols, row.length = cols.length)
    ∧ (∀ i j, matrixEntry (correlation_matrix m cols) i j
        = matrixEntry (correlation_matrix m cols) j i)
    ∧ ∀ i, i < cols.length →
        ((m = CorrMethod.pearson ∨ m = CorrMethod.spearman) →
          matrixEntry (correlation_matrix m cols) i i
            = if sumSqDev (cols.getD i []) = 0 then none else some 1)
        ∧ (m = CorrMethod.kendall →
          matrixEntry (correlation_matrix m cols) i i
            = if cols.getD i [] = [] then none else some 1) := by
  refine ⟨⟨?_, ?_⟩, ?_, ?_⟩
  · by_cases hm : m = CorrMethod.kendall
    · rw [correlation_matrix, if_pos hm]
      simp
    · rw [correlation_matrix, if_neg hm]
      simp
  · intro row hrow
    by_cases hm : m = CorrMethod.kendall
    · rw [correlation_matrix, if_pos hm] at hrow
      obtain ⟨k, _, rfl⟩ := List.mem_map.mp hrow
      simp
    · rw [correlation_matrix, if_neg hm] at hrow
      obtain ⟨c, _, rfl⟩ := List.mem_map.mp hrow
      simp
  · intro i j
    by_cases hm : m = CorrMethod.kendall
    · subst hm
      by_cases hi : i < cols.length <;> by_cases hj : j < cols.length
      · rw [correlation_matrix_kendall_entry cols hi hj,
          correlation_matrix_kendall_entry cols hj hi]
        by_cases hij : i = j
        · subst hij
          rfl
        · rw [if_neg hij, if_neg (Ne.symm hij), kendallCorr_symm]
      · rw [correlation_matrix_entry_oob _ cols (Or.inr (not_lt.mp hj)),
          correlation_matrix_entry_oob _ cols (Or.inl (not_lt.mp hj))]
      · rw [correlation_matrix_entry_oob _ cols (Or.inl (not_lt.mp hi)),
          correlation_matrix_entry_oob _ cols (Or.inr (not_lt.mp hi))]
      · rw [correlation_matrix_entry_oob _ cols (Or.inl (not_lt.mp hi)),
          correlation_matrix_entry_oob _ cols (Or.inr (not_lt.mp hi))]
    · by_cases hi : i < cols.length <;> by_cases hj : j < cols.length
      · rw [correlation_matrix_entry m cols hm hi hj,
          correlation_matrix_entry m cols hm hj hi, corrFn_symm]
      · rw [correlation_matrix_entry_oob m cols (Or.inr (not_lt.mp hj)),
          correlation_matrix_entry_oob m cols (Or.inl (not_lt.mp hj))]
      · rw [correlation_matrix_entry_oob m cols (Or.inl (not_lt.mp hi)),
          correlation_matrix_entry_oob m cols (Or.inr (not_lt.mp hi))]
      · rw [correlation_matrix_entry_oob m cols (Or.inl (not_lt.mp hi)),
          correlation_matrix_entry_oob m cols (Or.inr (not_lt.mp hi))]
  · intro i hi
    constructor
    · intro hps
      have hm : m ≠ CorrMethod.kendall := by
        rcases hps with rfl | rfl <;> intro hc <;> cases hc
      rw [correlation_matrix_entry m cols hm hi hi]
      by_cases h0 : sumSqDev (cols.getD i []) = 0
      · rw [if_pos h0]
        rcases hps with rfl | rfl
        · exact pearsonCorr_self_degenerate h0
        · exact spearmanCorr_self_degenerate h0
      · rw [if_neg h0]
        exact corrFn_self m h0
    · intro hk
      subst hk
      rw [correlation_matrix_kendall_entry cols hi hi, if_pos rfl]

/-- Witness for C3: the pearson diagonal clause at a column with nonzero
variance, and the kendall diagonal clause at the constant column `[1, 1]`
(where the generic pandas path hard-codes 1.0). -/
theorem C3_witness :
    ((CorrMethod.pearson = CorrMethod.pearson ∨ CorrMethod.pearson = CorrMethod.spearman)
      ∧ matrixEntry (correlation_matrix .pearson [[(0:ℚ), 1, 2]]) 0 0
          = if sumSqDev (([[(0:ℚ), 1, 2]] : List (List ℚ)).getD 0 []) = 0
            then none else some 1)
    ∧ (CorrMethod.kendall = CorrMethod.kendall
      ∧ matrixEntry (correlation_matrix .kendall [[(1:ℚ), 1]]) 0 0
          = if ([[(1:ℚ), 1]] : List (List ℚ)).getD 0 [] = []
            then none else some 1) :=
  ⟨⟨Or.inl rfl,
    ((C3_correlation_matrix .pearson [[(0:ℚ), 1, 2]]).2.2 0 (by norm_num)).1
      (Or.inl rfl)⟩,
   ⟨rfl,
    ((C3_correlation_matrix .kendall [[(1:ℚ), 1]]).2.2 0 (by norm_num)).2 rfl⟩⟩
